import Mathlib

/-!
Verification of the Production Reconciliation & Degradation Analytics
Pipeline of the solar-dashboard repository.  The definitions below are a
shallow embedding of the Python sources (`main.py`, `sites_table_nogui.py`,
`dashboard_generator.py`, `mobile_generator.py`): calendar dates are day
numbers (`Int`), energy values are exact rationals (`ℚ`), a missing cell
(pandas `NaN`) is `Option.none`.
-/

namespace Solar

/-! ## Readings and the canonical series

`main.py` `sync_and_load_data` keeps the durable series as a long-format
table with columns `Site_ID`, `Date`, `Solar_kWh`; `Solar_kWh` may be `NaN`
(rows are only dropped when the `Date` fails to parse). -/

structure Reading where
  site : String
  date : Int
  kwh : Option ℚ
deriving DecidableEq, Repr

def keyOf (r : Reading) : String × Int := (r.site, r.date)

/-- Last-occurrence lookup: the value the long-format table holds for a
`(site_id, date)` key, where a later row shadows an earlier one. -/
def lookup : List Reading → String × Int → Option (Option ℚ)
  | [], _ => none
  | r :: rs, k =>
    match lookup rs k with
    | some v => some v
    | none => if keyOf r = k then some r.kwh else none

/-- Insert a reading into a date-sorted accumulator, after every element
whose date is `≤` its own.  Folding this over a list is a STABLE sort by
date: rows with equal dates keep their relative order.  Pandas
`sort_values('Date')` guarantees this tie order only for its stable sort
kinds (`mergesort`/`stable`); the default `quicksort` leaves the order of
equal-date rows unspecified, so this function is the tie-stability
idealization of the sort, one admissible outcome among `DateSortedPerm`
below, not the contract of `sort_values` itself. -/
def insertByDate (r : Reading) : List Reading → List Reading
  | [] => [r]
  | x :: xs => if x.date ≤ r.date then x :: insertByDate r xs else r :: x :: xs

/-- Stable-tie date sort (see `insertByDate`). -/
def sortByDate (l : List Reading) : List Reading :=
  l.foldl (fun acc r => insertByDate r acc) []

/-- Embedding of `drop_duplicates(subset=['Site_ID','Date'], keep='last')`:
keep a row only when no later row carries the same key.  This step is
deterministic in its input order. -/
def dedupKeepLast : List Reading → List Reading
  | [] => []
  | r :: rs =>
    if rs.any (fun x => keyOf x == keyOf r) then dedupKeepLast rs
    else r :: dedupKeepLast rs

def KeysUnique (l : List Reading) : Prop :=
  l.Pairwise (fun a b => keyOf a ≠ keyOf b)

def DateSorted (l : List Reading) : Prop :=
  l.Pairwise (fun a b => a.date ≤ b.date)

/-- Contract of pandas `sort_values('Date')` (default `kind='quicksort'`):
the output is SOME permutation of the input that is sorted by date; the
relative order of rows with equal dates is unspecified. -/
def DateSortedPerm (l out : List Reading) : Prop :=
  out.Perm l ∧ DateSorted out

/-- Faithful model of the series merger (`main.py` lines 131–141,
`sites_table_nogui.py` lines 205–218): `out` is an admissible result of
`concat([hist, new]).sort_values('Date').drop_duplicates(subset=
['Site_ID','Date'], keep='last')` — an unspecified date-sorted permutation
of the concatenation, deduplicated keeping the positionally last row of
each `(site_id, date)` key. -/
def MergeOutcome (hist newR out : List Reading) : Prop :=
  ∃ s, DateSortedPerm (hist ++ newR) s ∧ out = dedupKeepLast s

/-- The merge under the tie-stability idealization: the single admissible
outcome in which equal-date rows keep their concatenation order (what
pandas produces with a stable sort kind). -/
def mergeStable (hist newR : List Reading) : List Reading :=
  dedupKeepLast (sortByDate (hist ++ newR))

theorem lookup_cons_of_some {rs : List Reading} {k : String × Int}
    {v : Option ℚ} (r : Reading) (h : lookup rs k = some v) :
    lookup (r :: rs) k = some v := by
  simp [lookup, h]

theorem lookup_cons_of_none {rs : List Reading} {k : String × Int}
    (r : Reading) (h : lookup rs k = none) :
    lookup (r :: rs) k = if keyOf r = k then some r.kwh else none := by
  simp [lookup, h]

theorem lookup_eq_none_iff (l : List Reading) (k : String × Int) :
    lookup l k = none ↔ ∀ r ∈ l, keyOf r ≠ k := by
  induction l with
  | nil => simp [lookup]
  | cons r rs ih =>
    cases h : lookup rs k with
    | some v =>
      rw [lookup_cons_of_some r h]
      constructor
      · intro hs; cases hs
      · intro hall
        have hn : lookup rs k = none :=
          ih.mpr (fun x hx => hall x (List.mem_cons_of_mem _ hx))
        rw [h] at hn; cases hn
    | none =>
      rw [lookup_cons_of_none r h]
      constructor
      · intro hif x hx
        rcases List.mem_cons.mp hx with rfl | hx
        · intro hk; rw [if_pos hk] at hif; cases hif
        · exact ih.mp h x hx
      · intro hall
        rw [if_neg (hall r (List.mem_cons_self r rs))]

theorem mem_insertByDate (r a : Reading) (l : List Reading) :
    a ∈ insertByDate r l ↔ a = r ∨ a ∈ l := by
  induction l with
  | nil => simp [insertByDate]
  | cons x xs ih =>
    by_cases h : x.date ≤ r.date
    · simp only [insertByDate, if_pos h, List.mem_cons, ih]
      tauto
    · simp only [insertByDate, if_neg h, List.mem_cons]

theorem dateSorted_insertByDate (r : Reading) (l : List Reading)
    (hl : DateSorted l) : DateSorted (insertByDate r l) := by
  induction l with
  | nil => simp [insertByDate, DateSorted]
  | cons x xs ih =>
    rcases List.pairwise_cons.mp hl with ⟨hx, hxs⟩
    by_cases h : x.date ≤ r.date
    · rw [insertByDate, if_pos h]
      refine List.pairwise_cons.mpr ⟨?_, ih hxs⟩
      intro b hb
      rcases (mem_insertByDate r b xs).mp hb with rfl | hb
      · exact h
      · exact hx b hb
    · rw [insertByDate, if_neg h]
      push_neg at h
      refine List.pairwise_cons.mpr ⟨?_, hl⟩
      intro b hb
      rcases List.mem_cons.mp hb with rfl | hb
      · exact le_of_lt h
      · exact le_trans (le_of_lt h) (hx b hb)

theorem lookup_insertByDate_self (r : Reading) (acc : List Reading)
    (hacc : DateSorted acc) (k : String × Int) (hk : keyOf r = k) :
    lookup (insertByDate r acc) k = some r.kwh := by
  induction acc with
  | nil => simp [insertByDate, lookup, hk]
  | cons x xs ih =>
    rcases List.pairwise_cons.mp hacc with ⟨hx, hxs⟩
    by_cases h : x.date ≤ r.date
    · rw [insertByDate, if_pos h]
      exact lookup_cons_of_some x (ih hxs)
    · push_neg at h
      rw [insertByDate, if_neg (not_le.mpr h)]
      have hnone : lookup xs k = none := by
        rw [lookup_eq_none_iff]
        intro b hb hbk
        have hdb : r.date < b.date := lt_of_lt_of_le h (hx b hb)
        have h1 : b.date = k.2 := congrArg Prod.snd hbk
        have h2 : r.date = k.2 := congrArg Prod.snd hk
        omega
      have hxnk : keyOf x ≠ k := by
        intro hxk
        have h1 : x.date = k.2 := congrArg Prod.snd hxk
        have h2 : r.date = k.2 := congrArg Prod.snd hk
        omega
      have hx2 : lookup (x :: xs) k = none := by
        rw [lookup_cons_of_none x hnone, if_neg hxnk]
      rw [lookup_cons_of_none r hx2, if_pos hk]

theorem lookup_insertByDate_other (r : Reading) (acc : List Reading)
    (k : String × Int) (hk : keyOf r ≠ k) :
    lookup (insertByDate r acc) k = lookup acc k := by
  induction acc with
  | nil => simp [insertByDate, lookup, hk]
  | cons x xs ih =>
    by_cases h : x.date ≤ r.date
    · rw [insertByDate, if_pos h]
      cases h2 : lookup (insertByDate r xs) k with
      | some v =>
        rw [lookup_cons_of_some x h2, lookup_cons_of_some x (ih ▸ h2)]
      | none =>
        rw [lookup_cons_of_none x h2, lookup_cons_of_none x (ih ▸ h2)]
    · rw [insertByDate, if_neg h]
      cases h2 : lookup (x :: xs) k with
      | some v => exact lookup_cons_of_some r h2
      | none => rw [lookup_cons_of_none r h2, if_neg hk]

theorem lookup_foldl_insert_none (l : List Reading) {k : String × Int}
    (acc : List Reading) (hacc : DateSorted acc)
    (hl : lookup l k = none) :
    lookup (l.foldl (fun a r => insertByDate r a) acc) k = lookup acc k := by
  induction l generalizing acc with
  | nil => rfl
  | cons r rs ih =>
    rw [List.foldl_cons]
    cases hrs : lookup rs k with
    | some w => rw [lookup_cons_of_some r hrs] at hl; cases hl
    | none =>
      rw [lookup_cons_of_none r hrs] at hl
      have hk : keyOf r ≠ k := by
        intro hkk; rw [if_pos hkk] at hl; cases hl
      rw [ih (insertByDate r acc) (dateSorted_insertByDate r acc hacc) hrs,
        lookup_insertByDate_other r acc k hk]

theorem lookup_foldl_insert_some (l : List Reading) {k : String × Int}
    {v : Option ℚ} (acc : List Reading) (hacc : DateSorted acc)
    (hl : lookup l k = some v) :
    lookup (l.foldl (fun a r => insertByDate r a) acc) k = some v := by
  induction l generalizing acc with
  | nil => cases hl
  | cons r rs ih =>
    rw [List.foldl_cons]
    cases hrs : lookup rs k with
    | some w =>
      have hwv : w = v := by
        rw [lookup_cons_of_some r hrs] at hl
        exact Option.some.inj hl
      exact ih (insertByDate r acc) (dateSorted_insertByDate r acc hacc) (hwv ▸ hrs)
    | none =>
      rw [lookup_cons_of_none r hrs] at hl
      by_cases hk : keyOf r = k
      · rw [if_pos hk] at hl
        have hv : r.kwh = v := Option.some.inj hl
        calc lookup (rs.foldl (fun a r => insertByDate r a) (insertByDate r acc)) k
            = lookup (insertByDate r acc) k :=
              lookup_foldl_insert_none rs _ (dateSorted_insertByDate r acc hacc) hrs
          _ = some r.kwh := lookup_insertByDate_self r acc hacc k hk
          _ = some v := by rw [hv]
      · rw [if_neg hk] at hl; cases hl

theorem lookup_sortByDate (l : List Reading) (k : String × Int) :
    lookup (sortByDate l) k = lookup l k := by
  rw [sortByDate]
  cases hl : lookup l k with
  | some v => exact lookup_foldl_insert_some l [] List.Pairwise.nil hl
  | none => exact lookup_foldl_insert_none l [] List.Pairwise.nil hl

theorem mem_dedupKeepLast (l : List Reading) (r : Reading) :
    r ∈ dedupKeepLast l → r ∈ l := by
  induction l with
  | nil => simp [dedupKeepLast]
  | cons x xs ih =>
    by_cases h : xs.any (fun y => keyOf y == keyOf x)
    · rw [dedupKeepLast, if_pos h]
      exact fun hr => List.mem_cons_of_mem _ (ih hr)
    · rw [dedupKeepLast, if_neg h]
      intro hr
      rcases List.mem_cons.mp hr with rfl | hr
      · exact List.mem_cons_self _ _
      · exact List.mem_cons_of_mem _ (ih hr)

theorem lookup_dedupKeepLast (l : List Reading) (k : String × Int) :
    lookup (dedupKeepLast l) k = lookup l k := by
  induction l with
  | nil => rfl
  | cons x xs ih =>
    by_cases h : xs.any (fun y => keyOf y == keyOf x)
    · rw [dedupKeepLast, if_pos h, ih]
      rcases List.any_eq_true.mp h with ⟨y, hy, hyk⟩
      have hyk' : keyOf y = keyOf x := by simpa using hyk
      cases hxs : lookup xs k with
      | some v => rw [lookup_cons_of_some x hxs]
      | none =>
        have hxk : keyOf x ≠ k := by
          intro hk
          exact absurd hxs (by
            rw [lookup_eq_none_iff]
            push_neg
            exact ⟨y, hy, hyk'.trans hk⟩)
        rw [lookup_cons_of_none x hxs, if_neg hxk]
    · rw [dedupKeepLast, if_neg h]
      cases hd : lookup (dedupKeepLast xs) k with
      | some v =>
        rw [lookup_cons_of_some x hd, lookup_cons_of_some x (ih ▸ hd)]
      | none =>
        rw [lookup_cons_of_none x hd, lookup_cons_of_none x (ih ▸ hd)]

theorem keysUnique_dedupKeepLast (l : List Reading) :
    KeysUnique (dedupKeepLast l) := by
  induction l with
  | nil => exact List.Pairwise.nil
  | cons x xs ih =>
    by_cases h : xs.any (fun y => keyOf y == keyOf x)
    · rw [dedupKeepLast, if_pos h]; exact ih
    · rw [dedupKeepLast, if_neg h]
      refine List.pairwise_cons.mpr ⟨?_, ih⟩
      intro b hb hbk
      have hb' : b ∈ xs := mem_dedupKeepLast xs b hb
      have hall := List.any_eq_false.mp (Bool.of_not_eq_true h)
      exact hall b hb' (by simp [hbk])

theorem lookup_append_of_some {b : List Reading} {k : String × Int}
    {v : Option ℚ} (a : List Reading) (h : lookup b k = some v) :
    lookup (a ++ b) k = some v := by
  induction a with
  | nil => exact h
  | cons r rs ih => exact lookup_cons_of_some r ih

theorem lookup_append_of_none {b : List Reading} {k : String × Int}
    (a : List Reading) (h : lookup b k = none) :
    lookup (a ++ b) k = lookup a k := by
  induction a with
  | nil => exact h
  | cons r rs ih =>
    cases ha : lookup rs k with
    | some v =>
      rw [List.cons_append, lookup_cons_of_some r (ih.trans ha),
        lookup_cons_of_some r ha]
    | none =>
      rw [List.cons_append, lookup_cons_of_none r (ih.trans ha),
        lookup_cons_of_none r ha]

/-- Master characterization of the stable-tie merge: as a
`(site_id, date) → kwh` mapping it equals the concatenation of the
historical series with the new readings under last-occurrence lookup. -/
theorem lookup_mergeStable (hist newR : List Reading) (k : String × Int) :
    lookup (mergeStable hist newR) k = lookup (hist ++ newR) k := by
  rw [mergeStable, lookup_dedupKeepLast, lookup_sortByDate]

theorem insertByDate_perm (r : Reading) (l : List Reading) :
    (insertByDate r l).Perm (r :: l) := by
  induction l with
  | nil => exact List.Perm.refl _
  | cons x xs ih =>
    by_cases h : x.date ≤ r.date
    · rw [insertByDate, if_pos h]
      exact (ih.cons x).trans (List.Perm.swap r x xs)
    · rw [insertByDate, if_neg h]

theorem foldl_insertByDate_perm (l acc : List Reading) :
    (l.foldl (fun a r => insertByDate r a) acc).Perm (acc ++ l) := by
  induction l generalizing acc with
  | nil => simp
  | cons r rs ih =>
    rw [List.foldl_cons]
    refine (ih (insertByDate r acc)).trans ?_
    refine (List.Perm.append_right rs (insertByDate_perm r acc)).trans ?_
    exact List.perm_middle.symm

/-- The stable-tie sort is a permutation of its input. -/
theorem sortByDate_perm (l : List Reading) : (sortByDate l).Perm l := by
  simpa using foldl_insertByDate_perm l []

theorem dateSorted_foldl_insert (l acc : List Reading)
    (hacc : DateSorted acc) :
    DateSorted (l.foldl (fun a r => insertByDate r a) acc) := by
  induction l generalizing acc with
  | nil => exact hacc
  | cons r rs ih => exact ih (insertByDate r acc) (dateSorted_insertByDate r acc hacc)

theorem dateSorted_sortByDate (l : List Reading) : DateSorted (sortByDate l) :=
  dateSorted_foldl_insert l [] List.Pairwise.nil

/-- The stable-tie merge is one admissible outcome of the program's
merge. -/
theorem mergeOutcome_mergeStable (hist newR : List Reading) :
    MergeOutcome hist newR (mergeStable hist newR) :=
  ⟨sortByDate (hist ++ newR),
    ⟨sortByDate_perm (hist ++ newR), dateSorted_sortByDate (hist ++ newR)⟩, rfl⟩

/-- Deduplication does not change a list whose keys are already unique. -/
theorem dedupKeepLast_of_keysUnique {l : List Reading} (h : KeysUnique l) :
    dedupKeepLast l = l := by
  induction l with
  | nil => rfl
  | cons x xs ih =>
    rcases List.pairwise_cons.mp h with ⟨hx, hxs⟩
    have hany : xs.any (fun y => keyOf y == keyOf x) = false := by
      rw [List.any_eq_false]
      intro y hy
      simp only [beq_iff_eq]
      exact fun hk => (hx y hy) hk.symm
    rw [dedupKeepLast, hany]
    simp [ih hxs]

theorem lookup_of_mem_unique {l : List Reading} {r : Reading}
    {k : String × Int} (hu : KeysUnique l) (hr : r ∈ l) (hk : keyOf r = k) :
    lookup l k = some r.kwh := by
  induction l with
  | nil => cases hr
  | cons x xs ih =>
    rcases List.pairwise_cons.mp hu with ⟨hx, hxs⟩
    rcases List.mem_cons.mp hr with rfl | hr'
    · have hnone : lookup xs k = none := by
        rw [lookup_eq_none_iff]
        intro b hb hbk
        exact (hx b hb) (hk.trans hbk.symm)
      rw [lookup_cons_of_none r hnone, if_pos hk]
    · rw [lookup_cons_of_some x (ih hxs hr')]

theorem lookup_eq_some_mem {l : List Reading} {k : String × Int}
    {v : Option ℚ} (h : lookup l k = some v) :
    ∃ r ∈ l, keyOf r = k ∧ r.kwh = v := by
  induction l with
  | nil => cases h
  | cons x xs ih =>
    cases hxs : lookup xs k with
    | some w =>
      rw [lookup_cons_of_some x hxs] at h
      cases h
      rcases ih hxs with ⟨r, hr, hrk, hrv⟩
      exact ⟨r, List.mem_cons_of_mem _ hr, hrk, hrv⟩
    | none =>
      rw [lookup_cons_of_none x hxs] at h
      by_cases hk : keyOf x = k
      · rw [if_pos hk] at h
        cases h
        exact ⟨x, List.mem_cons_self _ _, hk, rfl⟩
      · rw [if_neg hk] at h
        cases h

theorem keysUnique_of_perm {s t : List Reading} (hp : s.Perm t)
    (ht : KeysUnique t) : KeysUnique s :=
  (List.Perm.pairwise_iff (fun h he => h he.symm) hp).mpr ht

/-- Lookup in a unique-keys list is invariant under permutation. -/
theorem lookup_eq_of_perm_unique {s t : List Reading} (hp : s.Perm t)
    (ht : KeysUnique t) (k : String × Int) : lookup s k = lookup t k := by
  cases h : lookup t k with
  | some v =>
    rcases lookup_eq_some_mem h with ⟨r, hr, hrk, hrv⟩
    rw [← hrv]
    exact lookup_of_mem_unique (keysUnique_of_perm hp ht) (hp.mem_iff.mpr hr) hrk
  | none =>
    rw [lookup_eq_none_iff] at h ⊢
    intro r hr
    exact h r (hp.mem_iff.mp hr)

/-- Example historical series used to instantiate the merge theorems. -/
def exHist : List Reading :=
  [{ site := "A", date := 0, kwh := some 1 }]

/-- Example new-readings set sharing the key `("A", 0)` with `exHist`. -/
def exNew : List Reading :=
  [{ site := "A", date := 0, kwh := some 2 }]

/-- C1 counterexample: under the program's sort contract (unstable tie
order) re-merging is NOT a no-op.  Both singleton rows carry the same key
`("A", 0)` and the same date, so both tie orders are admissible: the first
merge of `exNew` into `exHist` may retain the historical row (`exHist`
itself is an outcome, via the sorted permutation that places the new row
first); merging `exNew` into that result — the same `MergeOutcome exHist
exNew` relation, since the result equals `exHist` — may then retain the
new row (`exNew` is also an outcome), and the two series differ at the
key.  So the re-merge-idempotence conjunct of the claim fails on the
code. -/
theorem C1_remerge_counterexample :
    MergeOutcome exHist exNew exHist ∧
    MergeOutcome exHist exNew exNew ∧
    lookup exNew ("A", 0) ≠ lookup exHist ("A", 0) := by
  refine ⟨⟨[⟨"A", 0, some 2⟩, ⟨"A", 0, some 1⟩], ⟨by decide, by simp [DateSorted]⟩, by decide⟩,
    ⟨[⟨"A", 0, some 1⟩, ⟨"A", 0, some 2⟩], ⟨by decide, by simp [DateSorted]⟩, by decide⟩,
    by decide⟩

/-- C1 amended: merging an empty new-readings set into a canonical series
leaves it unchanged as a `(site_id, date) → kwh` mapping for EVERY
admissible sort outcome; re-merging the same new-readings set is a no-op
under the tie-stability idealization `mergeStable` (itself an admissible
outcome, and the behavior pandas guarantees only for its stable sort
kinds), but not under the default unstable sort (see the
counterexample). -/
theorem C1_merge_idempotent_amended :
    (∀ (S out : List Reading), KeysUnique S → MergeOutcome S [] out →
      ∀ k, lookup out k = lookup S k) ∧
    (∀ hist newR : List Reading, MergeOutcome hist newR (mergeStable hist newR)) ∧
    (∀ S R : List Reading, ∀ k,
      lookup (mergeStable (mergeStable S R) R) k = lookup (mergeStable S R) k) := by
  refine ⟨?_, mergeOutcome_mergeStable, ?_⟩
  · intro S out hu hout k
    rcases hout with ⟨s, ⟨hperm, _⟩, rfl⟩
    rw [List.append_nil] at hperm
    have hus : KeysUnique s := keysUnique_of_perm hperm hu
    rw [dedupKeepLast_of_keysUnique hus]
    exact lookup_eq_of_perm_unique hperm hu k
  · intro S R k
    rw [lookup_mergeStable]
    cases hR : lookup R k with
    | some v =>
      rw [lookup_append_of_some _ hR, lookup_mergeStable,
        lookup_append_of_some _ hR]
    | none =>
      rw [lookup_append_of_none _ hR]

/-- Witness for C1 amended at the concrete series. -/
theorem C1_merge_idempotent_amended_witness :
    lookup (mergeStable exHist []) ("A", 0) = lookup exHist ("A", 0) ∧
    lookup (mergeStable (mergeStable exHist exNew) exNew) ("A", 0) =
      lookup (mergeStable exHist exNew) ("A", 0) :=
  ⟨C1_merge_idempotent_amended.1 exHist (mergeStable exHist [])
      (by simp [KeysUnique, exHist])
      ⟨[⟨"A", 0, some 1⟩], ⟨by decide, by simp [DateSorted]⟩, by decide⟩ ("A", 0),
    C1_merge_idempotent_amended.2.2 exHist exNew ("A", 0)⟩

/-- C2 counterexample: the retained value for a key present in both sides
is NOT always the newly extracted reading's value.  The historical and the
new row for `("A", 0)` share the same date, so the sorted permutation that
places the new row first is admissible; `keep='last'` then retains the
historical value 1, not the new value 2, falsifying the last-write-wins
conjunct of the claim under the program's sort contract. -/
theorem C2_retained_value_counterexample :
    MergeOutcome exHist exNew exHist ∧
    (lookup exHist ("A", 0)).isSome ∧
    (lookup exNew ("A", 0)).isSome ∧
    lookup exHist ("A", 0) ≠ lookup exNew ("A", 0) := by
  refine ⟨⟨[⟨"A", 0, some 2⟩, ⟨"A", 0, some 1⟩], ⟨by decide, by simp [DateSorted]⟩, by decide⟩,
    by decide, by decide, by decide⟩

/-- C2 amended: every admissible merge outcome has at most one `kwh` value
per `(site_id, date)` key, and the value retained for a key is always one
recorded for that key in the concatenated input; that it is the NEW
reading's value for keys present in both sides holds under the
tie-stability idealization `mergeStable` (pandas' stable sort kinds), but
is not guaranteed under the default unstable sort (see the
counterexample). -/
theorem C2_merge_last_write_wins_amended :
    (∀ (S R out : List Reading), MergeOutcome S R out → KeysUnique out) ∧
    (∀ (S R out : List Reading) (k : String × Int) (v : Option ℚ),
      MergeOutcome S R out → lookup out k = some v →
      ∃ r ∈ S ++ R, keyOf r = k ∧ r.kwh = v) ∧
    (∀ (S R : List Reading) (k : String × Int),
      (lookup S k).isSome → (lookup R k).isSome →
      lookup (mergeStable S R) k = lookup R k) := by
  refine ⟨?_, ?_, ?_⟩
  · intro S R out hout
    rcases hout with ⟨s, _, rfl⟩
    exact keysUnique_dedupKeepLast s
  · intro S R out k v hout hv
    rcases hout with ⟨s, ⟨hperm, _⟩, rfl⟩
    rcases lookup_eq_some_mem hv with ⟨r, hr, hrk, hrv⟩
    exact ⟨r, hperm.mem_iff.mp (mem_dedupKeepLast s r hr), hrk, hrv⟩
  · intro S R k _ hR
    rcases Option.isSome_iff_exists.mp hR with ⟨v, hv⟩
    rw [lookup_mergeStable, lookup_append_of_some _ hv, hv]

/-- Witness for C2 amended at the concrete overlapping series. -/
theorem C2_merge_last_write_wins_amended_witness :
    KeysUnique (mergeStable exHist exNew) ∧
    lookup (mergeStable exHist exNew) ("A", 0) = lookup exNew ("A", 0) :=
  ⟨C2_merge_last_write_wins_amended.1 exHist exNew (mergeStable exHist exNew)
      ⟨[⟨"A", 0, some 1⟩, ⟨"A", 0, some 2⟩], ⟨by decide, by simp [DateSorted]⟩, by decide⟩,
    C2_merge_last_write_wins_amended.2.2 exHist exNew ("A", 0)
      (by decide) (by decide)⟩

/-! ## Rolling statistics engine

`main.py` `process_data` (lines 193–200) selects the 30-day window as
`[c for c in date_cols if c >= latest_date - pd.Timedelta(days=30)]`, and
`sites_table_nogui.py` `build_installed_sites_table` (lines 358–400) the
7/30/90-day windows as `[col for col in date_col_names if col >= date_Wd]`
with `date_Wd = latest_date - Timedelta(days=W)`: both are the closed
interval `[latest − W, latest]` (all columns are `≤ latest`).  Sums use
pandas `sum` (absent = 0 contribution), means use `mean(skipna=True)`
(absent dates excluded from the denominator). -/

def windowCols (dateCols : List Int) (latest w : Int) : List Int :=
  dateCols.filter (fun c => decide (latest - w ≤ c))

/-- Values actually present (non-`NaN`) for a site among the given date
columns. -/
def presentVals (row : Int → Option ℚ) (cols : List Int) : List ℚ :=
  cols.filterMap row

/-- Embedding of `final_df[cols].sum(axis=1)`. -/
def prodSum (row : Int → Option ℚ) (cols : List Int) : ℚ :=
  (presentVals row cols).sum

/-- Embedding of `final_df[cols].mean(axis=1, skipna=True)`: `NaN` (here
`none`) when no value is present, else the mean over present values. -/
def meanDaily (row : Int → Option ℚ) (cols : List Int) : Option ℚ :=
  let vs := presentVals row cols
  if vs.length = 0 then none else some (vs.sum / vs.length)

/-- Pandas float results relevant to the yield computation: a number, a
signed infinity, or `NaN`. -/
inductive PVal where
  | nan : PVal
  | posInf : PVal
  | negInf : PVal
  | val : ℚ → PVal
deriving DecidableEq, Repr

/-- Pandas elementwise division of a (possibly `NaN`) mean by a (possibly
`NaN`) capacity: `NaN` numerators and denominators propagate, a nonzero
finite value divided by zero is a signed infinity, `0/0` is `NaN`. -/
def pandasDiv : Option ℚ → Option ℚ → PVal
  | none, _ => .nan
  | some _, none => .nan
  | some m, some c =>
    if c = 0 then (if 0 < m then .posInf else if m < 0 then .negInf else .nan)
    else .val (m / c)

/-- Embedding of `.fillna(0)`: replaces `NaN` only, never an infinity. -/
def fillna0 : PVal → PVal
  | .nan => .val 0
  | x => x

/-- Embedding of `main.py` line 199:
`(final_df[cols_30d].mean(axis=1) / final_df['Array_Size_kWp']).fillna(0)`. -/
def mainAvgYield30 (dateCols : List Int) (latest : Int)
    (row : Int → Option ℚ) (cap : Option ℚ) : PVal :=
  fillna0 (pandasDiv (meanDaily row (windowCols dateCols latest 30)) cap)

/-- Embedding of `sites_table_nogui.py` lines 385–390: the yield is only computed when
the capacity is present and strictly positive, else the row gets `None`. -/
def noguiAvgYield (dateCols : List Int) (latest w : Int)
    (row : Int → Option ℚ) (cap : Option ℚ) : Option ℚ :=
  match cap with
  | some c =>
    if 0 < c then (meanDaily row (windowCols dateCols latest w)).map (fun m => m / c)
    else none
  | none => none

/-- The claim C6 test data: a reading of 1 kWh on every one of the 100
consecutive days 0..99, with `latest_date = 99`. -/
def days100 : List Int := (List.range 100).map (fun n => (n : Int))

def onesRow : Int → Option ℚ := fun d => if 0 ≤ d ∧ d ≤ 99 then some 1 else none

/-- A row with present values 2 and 4 on days 0 and 2 and absent values on
days 1 and 3, to exercise the skipna mean. -/
def gapRow : Int → Option ℚ :=
  fun d => if d = 0 then some 2 else if d = 2 then some 4 else none

/-- C6 counterexample: the code's 30-day window over 100 consecutive days
of 1 kWh sums to 31, not to the sum of the last 30 days' values (30); in
particular the 31st-oldest day, day 69 = 99 − 30, is included, not
excluded. -/
theorem C6_window_counterexample :
    prodSum onesRow (windowCols days100 99 30) = 31 ∧
    (List.replicate 30 (1 : ℚ)).sum = 30 ∧
    ((31 : ℚ) ≠ 30) ∧
    (69 : Int) ∈ windowCols days100 99 30 := by
  have hw : presentVals onesRow (windowCols days100 99 30) =
      List.replicate 31 (1 : ℚ) := by decide
  refine ⟨?_, ?_, by norm_num, by decide⟩
  · rw [prodSum, hw, List.sum_replicate]
    norm_num
  · rw [List.sum_replicate]
    norm_num

/-- C6 amended: the windows are the closed intervals `[latest − W, latest]`
(so the 30-day window of a fully-populated series holds 31 days and
`Prod_30d` is the sum of the last 31 days' values), and the window mean
divides by the number of present dates only, excluding absent dates from
the denominator. -/
theorem C6_window_amended :
    (∀ (dateCols : List Int) (latest w c : Int),
      c ∈ windowCols dateCols latest w ↔ c ∈ dateCols ∧ latest - w ≤ c) ∧
    prodSum onesRow (windowCols days100 99 30) = (List.replicate 31 (1 : ℚ)).sum ∧
    meanDaily gapRow [0, 1, 2, 3] = some 3 := by
  refine ⟨?_, ?_, ?_⟩
  · intro dateCols latest w c
    simp [windowCols, List.mem_filter]
  · have hw : presentVals onesRow (windowCols days100 99 30) =
        List.replicate 31 (1 : ℚ) := by decide
    rw [prodSum, hw]
  · have hg : presentVals gapRow [0, 1, 2, 3] = [2, 4] := by decide
    rw [meanDaily]
    norm_num [hg]

/-- Witness instantiating the universally quantified window
characterization of C6 at concrete values. -/
theorem C6_window_amended_witness :
    (69 : Int) ∈ windowCols days100 99 30 ↔
      (69 : Int) ∈ days100 ∧ (99 : Int) - 30 ≤ 69 :=
  C6_window_amended.1 days100 99 30 69

/-- Row exhibiting the `main.py` zero-capacity yield bug: one reading of
5 kWh on day 0. -/
def capZeroRow : Int → Option ℚ := fun d => if d = 0 then some 5 else none

/-- C8: `main.py` line 199 divides the 30-day mean by the capacity and only
then applies `.fillna(0)`; pandas turns a positive mean over a zero
capacity into `+inf`, which `.fillna(0)` does not touch, so the published
yield is an infinity rather than the absent/zero the spec requires.  The
`sites_table_nogui.py` variant guards the division with `capacity > 0` and
reports the metric as absent. -/
theorem C8_zero_capacity_inf :
    mainAvgYield30 [0] 0 capZeroRow (some 0) = PVal.posInf ∧
    noguiAvgYield [0] 0 30 capZeroRow (some 0) = none ∧
    PVal.posInf ≠ PVal.val 0 ∧
    mainAvgYield30 [0] 0 capZeroRow (some 10) = PVal.val (1/2) := by
  have h1 : presentVals capZeroRow (windowCols [0] 0 30) = [5] := by decide
  refine ⟨?_, ?_, by simp, ?_⟩
  · rw [mainAvgYield30, meanDaily]
    norm_num [h1, pandasDiv, fillna0]
  · rw [noguiAvgYield]
    norm_num
  · rw [mainAvgYield30, meanDaily]
    norm_num [h1, pandasDiv, fillna0]

/-! ## Fleet aggregator

`main.py` `get_weighted_stats` (lines 250–257) restricts to sites with
`Array_Size_kWp > 0`, groups by a categorical column, and reports
`avg_yield = Σ(yield·capacity) / Σ(capacity)` together with the site count
and total capacity.  `dashboard_generator.py` (lines 279–304) groups the
same way but aggregates `Avg_Yield_30d_kWh_kWp` with a plain `'mean'`. -/

structure GroupSite where
  group : String
  cap : ℚ
  yld : ℚ
deriving DecidableEq, Repr

structure GroupStats where
  siteCount : Nat
  totalCapacity : ℚ
  avgYield : ℚ
deriving DecidableEq, Repr

/-- The member rows of one group in `main.py` `get_weighted_stats`:
capacity-positive sites whose grouping column equals `g`. -/
def mainGroup (sites : List GroupSite) (g : String) : List GroupSite :=
  (sites.filter (fun s => decide (0 < s.cap))).filter (fun s => s.group == g)

/-- One output row of `main.py` `get_weighted_stats`. -/
def mainWeightedStats (sites : List GroupSite) (g : String) : GroupStats :=
  { siteCount := (mainGroup sites g).length
    totalCapacity := ((mainGroup sites g).map (fun s => s.cap)).sum
    avgYield := ((mainGroup sites g).map (fun s => s.yld * s.cap)).sum /
      ((mainGroup sites g).map (fun s => s.cap)).sum }

/-- One output row of the `dashboard_generator.py` group tables, which use
the naive arithmetic mean of the yields. -/
def dashGroupStats (sites : List GroupSite) (g : String) : GroupStats :=
  { siteCount := (sites.filter (fun s => s.group == g)).length
    totalCapacity := ((sites.filter (fun s => s.group == g)).map (fun s => s.cap)).sum
    avgYield := ((sites.filter (fun s => s.group == g)).map (fun s => s.yld)).sum /
      ((sites.filter (fun s => s.group == g)).length : ℚ) }

/-- The two-site example of the claim: capacities 10 and 90 kWp with
30-day yields 5.0 and 3.0, in one group. -/
def exGroup : List GroupSite :=
  [{ group := "g", cap := 10, yld := 5 }, { group := "g", cap := 90, yld := 3 }]

theorem sum_map_yld_mul_of_const {l : List GroupSite} {y : ℚ}
    (h : ∀ s ∈ l, s.yld = y) :
    (l.map (fun s => s.yld * s.cap)).sum = y * (l.map (fun s => s.cap)).sum := by
  induction l with
  | nil => simp
  | cons x xs ih =>
    have hx : x.yld = y := h x (List.mem_cons_self _ _)
    have hxs : ∀ s ∈ xs, s.yld = y := fun s hs => h s (List.mem_cons_of_mem _ hs)
    simp [ih hxs, hx]
    ring

/-- C7 counterexample: on the claim's own two-site example the
`dashboard_generator.py` group row reports the naive mean 4.0, not the
capacity-weighted 3.2 the claim asserts for every fleet-aggregator group. -/
theorem C7_naive_mean_counterexample :
    (dashGroupStats exGroup "g").avgYield = 4 ∧ ((4 : ℚ) ≠ 16/5) := by
  constructor
  · rw [dashGroupStats]
    norm_num [exGroup]
  · norm_num

/-- C7 amended: `main.py` `get_weighted_stats` reports the
capacity-weighted mean (3.2 on the example, with site count 2 and total
capacity 100, and the weighted mean of a constant-yield group is that
constant), while the `dashboard_generator.py` group tables report the
naive arithmetic mean (4.0 on the example). -/
theorem C7_weighted_amended :
    (mainWeightedStats exGroup "g").avgYield = 16/5 ∧
    (mainWeightedStats exGroup "g").siteCount = 2 ∧
    (mainWeightedStats exGroup "g").totalCapacity = 100 ∧
    (∀ (sites : List GroupSite) (g : String) (y : ℚ),
      (∀ s ∈ mainGroup sites g, s.yld = y) →
      0 < ((mainGroup sites g).map (fun s => s.cap)).sum →
      (mainWeightedStats sites g).avgYield = y) ∧
    (dashGroupStats exGroup "g").avgYield = 4 := by
  have hg : mainGroup exGroup "g" = exGroup := by decide
  refine ⟨?_, ?_, ?_, ?_, ?_⟩
  · rw [mainWeightedStats, hg]
    norm_num [exGroup]
  · rw [mainWeightedStats, hg]; rfl
  · rw [mainWeightedStats, hg]
    norm_num [exGroup]
  · intro sites g y hy hpos
    rw [mainWeightedStats]
    rw [sum_map_yld_mul_of_const hy]
    field_simp
  · rw [dashGroupStats]
    norm_num [exGroup]

/-- Witness instantiating the constant-yield part of C7 at a concrete
one-site group. -/
theorem C7_weighted_amended_witness :
    (mainWeightedStats [⟨"h", 10, 5⟩] "h").avgYield = 5 :=
  C7_weighted_amended.2.2.2.1 [⟨"h", 10, 5⟩] "h" 5 (by decide) (by
    have : mainGroup [⟨"h", 10, 5⟩] "h" = [⟨"h", 10, 5⟩] := by decide
    rw [this]
    norm_num)

/-! ## Degradation analyzer

`main.py` `generate_html` (lines 313–357) computes, per site with nonzero
capacity and a first-production date: the strictly positive readings in
the closed windows `[first, first+30]` and `[latest−30, latest]`; when both
hold more than five values, `np.percentile(·, 95)` of each divided by the
capacity, `years = (latest − first).days / 365.25`, the expected
degradation curve, the actual degradation with a `0` fallback for a
non-positive initial yield, and `has_recent_data` from the last three
observed dates.  The embedded `np.percentile` uses the default linear
interpolation on the ascending sort. -/

def insQ (x : ℚ) : List ℚ → List ℚ
  | [] => [x]
  | y :: ys => if y ≤ x then y :: insQ x ys else x :: y :: ys

def sortQ (l : List ℚ) : List ℚ := l.foldl (fun acc r => insQ r acc) []

def insI (x : Int) : List Int → List Int
  | [] => [x]
  | y :: ys => if y ≤ x then y :: insI x ys else x :: y :: ys

def sortI (l : List Int) : List Int := l.foldl (fun acc r => insI r acc) []

theorem mem_insQ (x a : ℚ) (l : List ℚ) : a ∈ insQ x l ↔ a = x ∨ a ∈ l := by
  induction l with
  | nil => simp [insQ]
  | cons y ys ih =>
    by_cases h : y ≤ x
    · simp only [insQ, if_pos h, List.mem_cons, ih]
      tauto
    · simp only [insQ, if_neg h, List.mem_cons]

theorem length_insQ (x : ℚ) (l : List ℚ) :
    (insQ x l).length = l.length + 1 := by
  induction l with
  | nil => rfl
  | cons y ys ih =>
    by_cases h : y ≤ x
    · simp [insQ, if_pos h, ih]
    · simp [insQ, if_neg h]

theorem sortedQ_insQ (x : ℚ) (l : List ℚ)
    (hl : l.Pairwise (· ≤ ·)) : (insQ x l).Pairwise (· ≤ ·) := by
  induction l with
  | nil => simp [insQ]
  | cons y ys ih =>
    rcases List.pairwise_cons.mp hl with ⟨hy, hys⟩
    by_cases h : y ≤ x
    · rw [insQ, if_pos h]
      refine List.pairwise_cons.mpr ⟨?_, ih hys⟩
      intro b hb
      rcases (mem_insQ x b ys).mp hb with rfl | hb
      · exact h
      · exact hy b hb
    · rw [insQ, if_neg h]
      push_neg at h
      refine List.pairwise_cons.mpr ⟨?_, hl⟩
      intro b hb
      rcases List.mem_cons.mp hb with rfl | hb
      · exact le_of_lt h
      · exact le_trans (le_of_lt h) (hy b hb)

theorem mem_foldl_insQ (l acc : List ℚ) (a : ℚ) :
    a ∈ l.foldl (fun acc r => insQ r acc) acc ↔ a ∈ acc ∨ a ∈ l := by
  induction l generalizing acc with
  | nil => simp
  | cons r rs ih =>
    rw [List.foldl_cons, ih, mem_insQ]
    simp only [List.mem_cons]
    tauto

theorem mem_sortQ (l : List ℚ) (a : ℚ) : a ∈ sortQ l ↔ a ∈ l := by
  rw [sortQ, mem_foldl_insQ]
  simp

theorem length_foldl_insQ (l acc : List ℚ) :
    (l.foldl (fun acc r => insQ r acc) acc).length = acc.length + l.length := by
  induction l generalizing acc with
  | nil => rfl
  | cons r rs ih =>
    rw [List.foldl_cons, ih, length_insQ, List.length_cons]
    omega

theorem length_sortQ (l : List ℚ) : (sortQ l).length = l.length := by
  rw [sortQ, length_foldl_insQ]
  simp

theorem sortedQ_foldl (l acc : List ℚ) (hacc : acc.Pairwise (· ≤ ·)) :
    (l.foldl (fun acc r => insQ r acc) acc).Pairwise (· ≤ ·) := by
  induction l generalizing acc with
  | nil => exact hacc
  | cons r rs ih => exact ih (insQ r acc) (sortedQ_insQ r acc hacc)

theorem sortedQ_sortQ (l : List ℚ) : (sortQ l).Pairwise (· ≤ ·) :=
  sortedQ_foldl l [] List.Pairwise.nil

/-- Virtual index used by `np.percentile(vals, 95)` with the default
linear interpolation: `h = (n − 1) * 95 / 100` on the ascending sort. -/
def p95H (n : Nat) : ℚ := ((n - 1 : ℕ) : ℚ) * 95 / 100

def p95Index (n : Nat) : Nat := (⌊p95H n⌋).toNat

/-- Embedding of `np.percentile(vals, 95)` (linear interpolation): sort
ascending, take `v[i] + (h − i) * (v[i+1] − v[i])` for `i = ⌊h⌋`, falling
back to `v[i]` at the top end. -/
def percentile95 (vals : List ℚ) : ℚ :=
  if (sortQ vals).length = 0 then 0
  else
    match (sortQ vals).get? (p95Index (sortQ vals).length + 1) with
    | some b =>
      ((sortQ vals).get? (p95Index (sortQ vals).length)).getD 0 +
        (p95H (sortQ vals).length - (p95Index (sortQ vals).length : ℚ)) *
          (b - ((sortQ vals).get? (p95Index (sortQ vals).length)).getD 0)
    | none => ((sortQ vals).get? (p95Index (sortQ vals).length)).getD 0

theorem p95Index_cast_le (n : Nat) :
    (p95Index n : ℚ) ≤ p95H n := by
  have hH0 : 0 ≤ p95H n := by
    rw [p95H]
    positivity
  have hfloor0 : (0 : Int) ≤ ⌊p95H n⌋ := Int.le_floor.mpr (by exact_mod_cast hH0)
  rw [p95Index]
  rw [show ((⌊p95H n⌋.toNat : ℚ)) = ((⌊p95H n⌋.toNat : Int) : ℚ) by push_cast; ring]
  rw [Int.toNat_of_nonneg hfloor0]
  exact Int.floor_le _

theorem p95Index_lt (n : Nat) (hn : n ≠ 0) : p95Index n < n := by
  have hH0 : 0 ≤ p95H n := by
    rw [p95H]
    positivity
  have hfloor0 : (0 : Int) ≤ ⌊p95H n⌋ := Int.le_floor.mpr (by exact_mod_cast hH0)
  have hHle : p95H n ≤ ((n - 1 : ℕ) : ℚ) := by
    rw [p95H]
    have h0 : (0:ℚ) ≤ ((n - 1 : ℕ) : ℚ) := Nat.cast_nonneg _
    nlinarith
  have hfl : ⌊p95H n⌋ ≤ (n - 1 : ℕ) := by
    calc ⌊p95H n⌋ ≤ ⌊((n - 1 : ℕ) : ℚ)⌋ := Int.floor_mono hHle
      _ = (n - 1 : ℕ) := Int.floor_natCast _
  have : p95Index n ≤ n - 1 := by
    rw [p95Index]
    omega
  omega

/-- The `np.percentile(·, 95)` of a nonempty list of strictly positive
values is strictly positive: the result interpolates between two adjacent
elements of the ascending sort, hence is at least the lower one. -/
theorem percentile95_pos {vals : List ℚ} (hpos : ∀ v ∈ vals, 0 < v)
    (hne : vals ≠ []) : 0 < percentile95 vals := by
  have hlen : (sortQ vals).length = vals.length := length_sortQ vals
  have hn : (sortQ vals).length ≠ 0 := by
    rw [hlen]
    intro h
    exact hne (List.length_eq_zero.mp h)
  have hidx : p95Index (sortQ vals).length < (sortQ vals).length :=
    p95Index_lt _ hn
  have ha : (sortQ vals).get? (p95Index (sortQ vals).length) =
      some ((sortQ vals).get ⟨p95Index (sortQ vals).length, hidx⟩) :=
    List.get?_eq_get hidx
  set a := (sortQ vals).get ⟨p95Index (sortQ vals).length, hidx⟩ with hadef
  have hamem : a ∈ vals := (mem_sortQ vals a).mp (List.get_mem _ _ _)
  have hapos : 0 < a := hpos a hamem
  have hfrac : 0 ≤ p95H (sortQ vals).length - (p95Index (sortQ vals).length : ℚ) := by
    have := p95Index_cast_le (sortQ vals).length
    linarith
  rw [percentile95, if_neg hn]
  cases hb : (sortQ vals).get? (p95Index (sortQ vals).length + 1) with
  | none =>
    rw [ha]
    simpa using hapos
  | some b =>
    rcases List.get?_eq_some.mp hb with ⟨hblt, hbget⟩
    have hab : a ≤ b := by
      rw [← hbget]
      exact List.pairwise_iff_get.mp (sortedQ_sortQ vals)
        ⟨p95Index (sortQ vals).length, hidx⟩
        ⟨p95Index (sortQ vals).length + 1, hblt⟩ (by simp)
    rw [ha]
    simp only [Option.getD_some]
    have hmul : 0 ≤ (p95H (sortQ vals).length - (p95Index (sortQ vals).length : ℚ)) * (b - a) :=
      mul_nonneg hfrac (by linarith)
    linarith

/-- Expected-degradation curve of `main.py` (lines 339–341) and
`dashboard_generator.py` (lines 143–149): first-year rate 1.5 %/yr, then
0.4 %/yr. -/
def expectedDeg (years : ℚ) : ℚ :=
  if years ≤ 1 then years * (3/2) else 3/2 + (years - 1) * (2/5)

/-- Expected-degradation curve of `mobile_generator.py` (lines 171–178):
first-year rate 3 %/yr, then 0.7 %/yr. -/
def mobileExpectedDeg (years : ℚ) : ℚ :=
  if years ≤ 1 then years * 3 else 3 + (years - 1) * (7/10)

/-- Degradation severity categories of the dashboards. -/
inductive DegCategory where
  | Offline : DegCategory
  | High : DegCategory
  | Medium : DegCategory
  | Low : DegCategory
  | Better : DegCategory
deriving DecidableEq, Repr

/-- Classification chain of `main.py` lines 707–714 (and the identical
`if/elif` chain of `mobile_generator.py` lines 142–192): the
`has_recent_data` check has priority over every numeric threshold. -/
def classify (hasRecent : Bool) (act : ℚ) : DegCategory :=
  if !hasRecent then .Offline
  else if 50 < act then .High
  else if 30 ≤ act then .Medium
  else if 0 ≤ act then .Low
  else .Better

/-- The run's latest observed date, `date_cols_sorted[-1]`. -/
def latestDate (dateCols : List Int) : Option Int :=
  (sortI dateCols).reverse.head?

/-- The last three observed dates, `date_cols_sorted[-3:]`. -/
def last3Dates (dateCols : List Int) : List Int :=
  (sortI dateCols).reverse.take 3

/-- Whether any of the last three observed dates holds a strictly positive
reading for this site. -/
def hasRecentData (dateCols : List Int) (row : Int → Option ℚ) : Bool :=
  (last3Dates dateCols).any (fun c =>
    match row c with
    | some v => decide (0 < v)
    | none => false)

/-- Strictly positive present readings among the date columns lying in the
closed interval `[lo, hi]`, the embedding of
`[row[c] for c in date_cols if lo <= c <= hi and pd.notna(row[c]) and row[c] > 0]`. -/
def posValsIn (row : Int → Option ℚ) (dateCols : List Int) (lo hi : Int) : List ℚ :=
  (dateCols.filter (fun c => decide (lo ≤ c) && decide (c ≤ hi))).filterMap
    (fun c =>
      match row c with
      | some v => if 0 < v then some v else none
      | none => none)

structure DegRecord where
  initYield : ℚ
  latestYield : ℚ
  years : ℚ
  expected : ℚ
  actual : ℚ
  perfVsExpected : ℚ
  hasRecent : Bool
deriving DecidableEq, Repr

/-- The record built once both windows have enough samples:
`init_95 = percentile(c_vals, 95)/arr`, `curr_95 = percentile(l_vals, 95)/arr`,
`years = (latest − first).days / 365.25`, the expected curve, the actual
degradation with the `0` fallback for a non-positive initial yield, and
`performance_vs_expected = expected − actual`. -/
def degRecordOf (arr : ℚ) (fd latest : Int) (cVals lVals : List ℚ)
    (hasRec : Bool) : DegRecord :=
  { initYield := percentile95 cVals / arr
    latestYield := percentile95 lVals / arr
    years := ((latest - fd : Int) : ℚ) / (1461/4)
    expected := expectedDeg (((latest - fd : Int) : ℚ) / (1461/4))
    actual :=
      if 0 < percentile95 cVals / arr then
        (percentile95 cVals / arr - percentile95 lVals / arr) /
          (percentile95 cVals / arr) * 100
      else 0
    perfVsExpected :=
      expectedDeg (((latest - fd : Int) : ℚ) / (1461/4)) -
        (if 0 < percentile95 cVals / arr then
          (percentile95 cVals / arr - percentile95 lVals / arr) /
            (percentile95 cVals / arr) * 100
        else 0)
    hasRecent := hasRec }

/-- Per-site degradation computation of `main.py` `generate_html`
(lines 321–357): skip sites with missing/zero capacity or no
first-production date; collect strictly positive readings in the closed
commissioning window `[first, first+30]` and recent window
`[latest−30, latest]`; require strictly more than five samples in each;
then produce the record. -/
def degAnalyze (dateCols : List Int) (row : Int → Option ℚ)
    (cap : Option ℚ) (firstDate : Option Int) : Option DegRecord :=
  match cap, firstDate, latestDate dateCols with
  | some arr, some fd, some latest =>
    if arr = 0 then none
    else if 5 < (posValsIn row dateCols fd (fd + 30)).length ∧
        5 < (posValsIn row dateCols (latest - 30) latest).length then
      some (degRecordOf arr fd latest (posValsIn row dateCols fd (fd + 30))
        (posValsIn row dateCols (latest - 30) latest)
        (hasRecentData dateCols row))
    else none
  | _, _, _ => none

theorem posValsIn_pos (row : Int → Option ℚ) (dateCols : List Int)
    (lo hi : Int) : ∀ v ∈ posValsIn row dateCols lo hi, 0 < v := by
  intro v hv
  rw [posValsIn, List.mem_filterMap] at hv
  rcases hv with ⟨c, _, hc⟩
  split at hc
  · split at hc
    · cases hc
      assumption
    · cases hc
  · cases hc

/-- The end-to-end example: a single site commissioned on day 0
(2023-01-01) with readings on the dates below; `latest_date` is day 731
(2025-01-01, two years later). -/
def exDates : List Int := [0, 1, 2, 3, 4, 5, 726, 727, 728, 729, 730, 731]

/-- Readings of the example: 50 kWh/day throughout the commissioning
window, 44 kWh/day throughout the recent window, so both window 95th
percentiles are 50 and 44 as the claim stipulates. -/
def exRow : Int → Option ℚ :=
  fun d =>
    if 0 ≤ d ∧ d ≤ 5 then some 50
    else if 726 ≤ d ∧ d ≤ 731 then some 44
    else none

theorem percentile95_six_const (q : ℚ) :
    percentile95 [q, q, q, q, q, q] = q := by
  have hs : sortQ [q, q, q, q, q, q] = [q, q, q, q, q, q] := by
    simp [sortQ, insQ]
  have hidx : p95Index 6 = 4 := by
    norm_num [p95Index, p95H]
    decide
  have hH : p95H 6 = 19/4 := by norm_num [p95H]
  simp only [percentile95, hs, List.length_cons, List.length_nil]
  norm_num [hidx, hH]

/-- The degradation record the code produces on the example with the
claimed capacity 10 kWp. -/
def exRec : DegRecord :=
  { initYield := 5, latestYield := 22/5, years := 2924/1461,
    expected := 27767/14610, actual := 12, perfVsExpected := -147553/14610,
    hasRecent := true }

theorem exDeg_eval : degAnalyze exDates exRow (some 10) (some 0) = some exRec := by
  have hlat : latestDate exDates = some 731 := by decide
  have hc : posValsIn exRow exDates 0 30 = [50, 50, 50, 50, 50, 50] := by decide
  have hl : posValsIn exRow exDates 701 731 = [44, 44, 44, 44, 44, 44] := by decide
  have hr : hasRecentData exDates exRow = true := by decide
  unfold degAnalyze
  rw [hlat]
  norm_num [hc, hl, hr, percentile95_six_const, expectedDeg, exRec, degRecordOf]

/-- The record produced on the same example when the metadata yields the
(physically meaningless) capacity −10 kWp: the capacity guard only
excludes `0`, the initial yield comes out negative and the `actual`
fallback branch fires. -/
def exRecNeg : DegRecord :=
  { initYield := -5, latestYield := -22/5, years := 2924/1461,
    expected := 27767/14610, actual := 0, perfVsExpected := 27767/14610,
    hasRecent := true }

theorem exDegNeg_eval :
    degAnalyze exDates exRow (some (-10)) (some 0) = some exRecNeg := by
  have hlat : latestDate exDates = some 731 := by decide
  have hc : posValsIn exRow exDates 0 30 = [50, 50, 50, 50, 50, 50] := by decide
  have hl : posValsIn exRow exDates 701 731 = [44, 44, 44, 44, 44, 44] := by decide
  have hr : hasRecentData exDates exRow = true := by decide
  unfold degAnalyze
  rw [hlat]
  norm_num [hc, hl, hr, percentile95_six_const, expectedDeg, exRecNeg, degRecordOf]

/-- C3 counterexample: on the claim's exact scenario (capacity 10 kWp,
commissioned day 0, commissioning-window p95 of 50 kWh/day, recent-window
p95 of 44 kWh/day two years later) the produced record classifies as
`Low`, not `Medium`: its `actual_degradation_pct` is 12, and the
classification chain maps 12 to `Low` (`Medium` needs `≥ 30`). -/
theorem C3_category_counterexample :
    Option.map (fun r => classify r.hasRecent r.actual)
      (degAnalyze exDates exRow (some 10) (some 0)) = some DegCategory.Low ∧
    DegCategory.Low ≠ DegCategory.Medium := by
  rw [exDeg_eval]
  refine ⟨?_, by decide⟩
  have : classify exRec.hasRecent exRec.actual = DegCategory.Low := by
    norm_num [classify, exRec]
  simp [this]

/-- C3 amended: on the end-to-end example the analyzer produces
`initial_yield_p95 = 5.0`, `latest_yield_p95 = 4.4`,
`actual_degradation_pct = 12.0`, `years_elapsed ≈ 2.0` (exactly
731/365.25), `expected_degradation_pct ≈ 1.9`,
`performance_vs_expected_pct ≈ −10.1` (each within 1/100 of the claimed
value), and the category is `Low`, not `Medium`. -/
theorem C3_end_to_end_amended :
    degAnalyze exDates exRow (some 10) (some 0) = some exRec ∧
    exRec.initYield = 5 ∧
    exRec.latestYield = 22/5 ∧
    exRec.actual = 12 ∧
    |exRec.years - 2| ≤ 1/100 ∧
    |exRec.expected - 19/10| ≤ 1/100 ∧
    |exRec.perfVsExpected - (-101/10)| ≤ 1/100 ∧
    classify exRec.hasRecent exRec.actual = DegCategory.Low := by
  refine ⟨exDeg_eval, ?_, ?_, ?_, ?_, ?_, ?_, ?_⟩ <;>
    norm_num [exRec, classify, abs_le]

/-- C10 counterexample: the emission guard is `capacity == 0` (plus
missing), not `capacity > 0`; with capacity −10 a record is still produced
whose `initial_yield_p95` is −5 < 0, and the `actual = 0` fallback branch
is reached (the non-fallback formula would give 12 ≠ 0 here), so the
fallback is not unreachable. -/
theorem C10_negative_capacity_counterexample :
    degAnalyze exDates exRow (some (-10)) (some 0) = some exRecNeg ∧
    exRecNeg.initYield < 0 ∧
    exRecNeg.actual = 0 ∧
    (exRecNeg.initYield - exRecNeg.latestYield) / exRecNeg.initYield * 100 = 12 := by
  refine ⟨exDegNeg_eval, ?_, ?_, ?_⟩ <;> norm_num [exRecNeg]

/-- C10 amended: for every produced record of a site whose capacity is
strictly positive, the initial yield is strictly positive (the percentile
of the more-than-five strictly positive commissioning readings is
positive, and so is its quotient by the capacity), hence the `actual = 0`
fallback is not taken and `actual` is the true relative-degradation
formula.  The guard itself only excludes zero/missing capacity, so the
positivity hypothesis is genuinely needed (see the counterexample). -/
theorem C10_positive_capacity_amended (dateCols : List Int)
    (row : Int → Option ℚ) (arr : ℚ) (fd : Int) (rec : DegRecord)
    (harr : 0 < arr)
    (hrec : degAnalyze dateCols row (some arr) (some fd) = some rec) :
    0 < rec.initYield ∧
    rec.actual = (rec.initYield - rec.latestYield) / rec.initYield * 100 := by
  unfold degAnalyze at hrec
  split at hrec
  · rename_i arrP fdP latestP heqArr heqFd heqLat
    obtain rfl : arr = arrP := Option.some.inj heqArr
    obtain rfl : fd = fdP := Option.some.inj heqFd
    rw [if_neg (ne_of_gt harr)] at hrec
    split at hrec
    · rename_i hlens
      have hcne : posValsIn row dateCols fd (fd + 30) ≠ [] := by
        intro h0
        rw [h0] at hlens
        simp at hlens
      have hppos : 0 < percentile95 (posValsIn row dateCols fd (fd + 30)) :=
        percentile95_pos (posValsIn_pos row dateCols fd (fd + 30)) hcne
      have hinit : 0 < percentile95 (posValsIn row dateCols fd (fd + 30)) / arr :=
        div_pos hppos harr
      cases Option.some.inj hrec
      constructor
      · simpa [degRecordOf] using hinit
      · simp [degRecordOf, if_pos hinit]
    · cases hrec
  · cases hrec

/-- Witness for C10 at the concrete example site with capacity 10. -/
theorem C10_positive_capacity_amended_witness :
    0 < exRec.initYield ∧
    exRec.actual = (exRec.initYield - exRec.latestYield) / exRec.initYield * 100 :=
  C10_positive_capacity_amended exDates exRow 10 0 exRec (by norm_num) exDeg_eval

/-- C4 counterexample: `mobile_generator.py` computes per-site expected
degradation with `R1 = 3`, `R2 = 0.7`; at `years_elapsed = 2` it reports
3.7 where the claimed `R1 = 1.5`, `R2 = 0.4` curve gives 1.9, so the claim
does not hold for every eligible site across the cited code. -/
theorem C4_mobile_constants_counterexample :
    mobileExpectedDeg 2 = 37/10 ∧ expectedDeg 2 = 19/10 ∧
    ((37 : ℚ)/10 ≠ 19/10) := by
  norm_num [mobileExpectedDeg, expectedDeg]

/-- C4 amended: every record of the `main.py`/`dashboard_generator.py`
analyzer carries `expected = expectedDeg years` with
`years = (latest − first)/365.25`, where `expectedDeg` is the claimed
piecewise curve with `R1 = 1.5`, `R2 = 0.4`; the `mobile_generator.py`
variant uses the same piecewise shape but `R1 = 3`, `R2 = 0.7`, which is
strictly larger at every positive age. -/
theorem C4_expected_curve_amended :
    (∀ (dateCols : List Int) (row : Int → Option ℚ) (arr : ℚ) (fd : Int)
        (rec : DegRecord),
      degAnalyze dateCols row (some arr) (some fd) = some rec →
      rec.expected = expectedDeg rec.years) ∧
    (∀ (dateCols : List Int) (row : Int → Option ℚ) (arr : ℚ)
        (fd latest : Int) (rec : DegRecord),
      latestDate dateCols = some latest →
      degAnalyze dateCols row (some arr) (some fd) = some rec →
      rec.years = ((latest - fd : Int) : ℚ) / (1461/4)) ∧
    (∀ y : ℚ, y ≤ 1 → expectedDeg y = y * (3/2)) ∧
    (∀ y : ℚ, 1 < y → expectedDeg y = 3/2 + (y - 1) * (2/5)) ∧
    (∀ y : ℚ, y ≤ 1 → mobileExpectedDeg y = y * 3) ∧
    (∀ y : ℚ, 1 < y → mobileExpectedDeg y = 3 + (y - 1) * (7/10)) ∧
    (∀ y : ℚ, 0 < y → expectedDeg y < mobileExpectedDeg y) := by
  refine ⟨?_, ?_, ?_, ?_, ?_, ?_, ?_⟩
  · intro dateCols row arr fd rec hrec
    unfold degAnalyze at hrec
    split at hrec
    · split at hrec
      · cases hrec
      · split at hrec
        · cases Option.some.inj hrec
          simp [degRecordOf]
        · cases hrec
    · cases hrec
  · intro dateCols row arr fd latest rec hlat hrec
    unfold degAnalyze at hrec
    split at hrec
    · rename_i arrP fdP latestP heqArr heqFd heqLat
      obtain rfl : fd = fdP := Option.some.inj heqFd
      obtain rfl : latest = latestP := by
        rw [hlat] at heqLat
        exact Option.some.inj heqLat
      split at hrec
      · cases hrec
      · split at hrec
        · cases Option.some.inj hrec
          simp [degRecordOf]
        · cases hrec
    · cases hrec
  · intro y hy
    rw [expectedDeg, if_pos hy]
  · intro y hy
    rw [expectedDeg, if_neg (not_le.mpr hy)]
  · intro y hy
    rw [mobileExpectedDeg, if_pos hy]
  · intro y hy
    rw [mobileExpectedDeg, if_neg (not_le.mpr hy)]
  · intro y hy
    by_cases h1 : y ≤ 1
    · rw [expectedDeg, if_pos h1, mobileExpectedDeg, if_pos h1]
      nlinarith
    · push_neg at h1
      rw [expectedDeg, if_neg (not_le.mpr h1), mobileExpectedDeg,
        if_neg (not_le.mpr h1)]
      nlinarith

/-- Witness for C4 amended at concrete ages and at the example record. -/
theorem C4_expected_curve_amended_witness :
    exRec.expected = expectedDeg exRec.years ∧
    expectedDeg 2 = 3/2 + (2 - 1) * (2/5) ∧
    mobileExpectedDeg 2 = 3 + (2 - 1) * (7/10) ∧
    expectedDeg 2 < mobileExpectedDeg 2 :=
  ⟨C4_expected_curve_amended.1 exDates exRow 10 0 exRec exDeg_eval,
    C4_expected_curve_amended.2.2.2.1 2 (by norm_num),
    C4_expected_curve_amended.2.2.2.2.2.1 2 (by norm_num),
    C4_expected_curve_amended.2.2.2.2.2.2 2 (by norm_num)⟩

/-- C5: the classification chain puts `Offline` first with priority over
every numeric threshold (in particular a value that would be `Low` still
maps to `Offline` when `has_recent_data` is false), and on records with
recent data the categories are exactly the claimed intervals:
`High ↔ act > 50`, `Medium ↔ 30 ≤ act ≤ 50`, `Low ↔ 0 ≤ act < 30`,
`Better ↔ act < 0`; `has_recent_data` itself holds exactly when one of the
last three observed dates carries a strictly positive reading. -/
theorem C5_classification (act : ℚ) (dateCols : List Int)
    (row : Int → Option ℚ) :
    (classify false act = DegCategory.Offline) ∧
    ((0 ≤ act ∧ act < 30) → classify false act = DegCategory.Offline ∧
      classify true act = DegCategory.Low) ∧
    (classify true act = DegCategory.High ↔ 50 < act) ∧
    (classify true act = DegCategory.Medium ↔ 30 ≤ act ∧ act ≤ 50) ∧
    (classify true act = DegCategory.Low ↔ 0 ≤ act ∧ act < 30) ∧
    (classify true act = DegCategory.Better ↔ act < 0) ∧
    (hasRecentData dateCols row = true ↔
      ∃ c ∈ last3Dates dateCols, ∃ v, row c = some v ∧ 0 < v) := by
  have hcl : classify true act =
      (if 50 < act then DegCategory.High
       else if 30 ≤ act then DegCategory.Medium
       else if 0 ≤ act then DegCategory.Low
       else DegCategory.Better) := rfl
  refine ⟨rfl, ?_, ?_, ?_, ?_, ?_, ?_⟩
  · intro h
    refine ⟨rfl, ?_⟩
    rw [hcl, if_neg (by linarith : ¬50 < act), if_neg (by linarith : ¬30 ≤ act),
      if_pos h.1]
  · rw [hcl]
    split_ifs with h1 h2 h3
    · simp [h1]
    · simp
      linarith
    · simp
      linarith
    · simp
      linarith
  · rw [hcl]
    split_ifs with h1 h2 h3
    · simp
      intro h
      linarith
    · simp [h2]
      linarith
    · simp
      intro h
      linarith
    · simp
      intro h
      linarith
  · rw [hcl]
    split_ifs with h1 h2 h3
    · simp
      intro h
      linarith
    · simp
      intro h
      linarith
    · simp [h3]
      linarith
    · simp
      intro h
      linarith
  · rw [hcl]
    split_ifs with h1 h2 h3
    · simp
      linarith
    · simp
      linarith
    · simp
      linarith
    · simp
      linarith
  · rw [hasRecentData, List.any_eq_true]
    constructor
    · rintro ⟨c, hc, hf⟩
      refine ⟨c, hc, ?_⟩
      cases hr : row c with
      | none => rw [hr] at hf; cases hf
      | some v =>
        rw [hr] at hf
        simp at hf
        exact ⟨v, rfl, hf⟩
    · rintro ⟨c, hc, v, hv, hpos⟩
      refine ⟨c, hc, ?_⟩
      rw [hv]
      simpa using hpos

/-- Witness for C5: a record with 12 % degradation and no recent data is
`Offline`, with recent data it is `Low`. -/
theorem C5_classification_witness :
    classify false 12 = DegCategory.Offline ∧
    classify true 12 = DegCategory.Low :=
  (C5_classification 12 [] (fun _ => none)).2.1 ⟨by norm_num, by norm_num⟩

/-! ## Tabular extractor

`main.py` `sync_and_load_data` (lines 95–127) scans the first 50 rows for
one whose stripped cell values contain both `'Site'` and
`'Solar Supply (kWh)'` exactly; no such row means the document is skipped.
After reparsing with the found header it further requires the `'Site'`,
`'Date'` and `'Solar Supply (kWh)'` columns (BOM-stripped and trimmed),
else skips the document.  `sites_table_nogui.py` `load_monitoring_data`
(lines 134–199) instead scans 30 rows for the substring
`"Solar Supply (kWh)"` in the space-joined row, FALLS BACK to row index 20
when the scan fails, and rejects only if the flexible case-insensitive
column matching then fails.  Cells are modelled as already-stringified
values. -/

def dropWS : List Char → List Char
  | [] => []
  | c :: cs => if c.isWhitespace then dropWS cs else c :: cs

/-- Embedding of Python `str.strip()`. -/
def trimS (s : String) : String :=
  ⟨(dropWS ((dropWS s.data).reverse)).reverse⟩

/-- Embedding of the BOM removal `str.replace(u-FEFF, '')`: drops every
byte-order mark character. -/
def stripBOM (s : String) : String :=
  ⟨s.data.filter (fun c => !(c = '\uFEFF'))⟩

/-- Embedding of `str.lower()`. -/
def lowerS (s : String) : String := ⟨s.data.map Char.toLower⟩

def startsL : List Char → List Char → Bool
  | [], _ => true
  | _ :: _, [] => false
  | a :: ps, b :: ss => a = b && startsL ps ss

def hasSubL (p : List Char) : List Char → Bool
  | [] => p.isEmpty
  | c :: rest => startsL p (c :: rest) || hasSubL p rest

/-- Embedding of the Python substring test `pat in s`. -/
def containsSub (s pat : String) : Bool := hasSubL pat.data s.data

/-- Embedding of `' '.join(row)`. -/
def joinSpace : List String → String
  | [] => ""
  | [s] => s
  | s :: rest => s ++ " " ++ joinSpace rest

/-- Index of the first row satisfying the predicate, the embedding of the
scan-and-`break` loops of both extractors. -/
def scanIdx (p : List String → Bool) : List (List String) → Option Nat
  | [] => none
  | r :: rs => if p r then some 0 else (scanIdx p rs).map (· + 1)

/-- Index of the LAST column satisfying the predicate: the flexible
matching loop of `sites_table_nogui.py` assigns without breaking, so a
later matching column overwrites an earlier one. -/
def lastIdxWhere (p : String → Bool) : List String → Option Nat
  | [] => none
  | c :: cs =>
    match lastIdxWhere p cs with
    | some j => some (j + 1)
    | none => if p c then some 0 else none

/-- Header test of `main.py`: the stripped cell values contain both `'Site'`
and `'Solar Supply (kWh)'` exactly. -/
def mainHeaderRow (row : List String) : Bool :=
  (row.map trimS).contains ("Site") &&
    (row.map trimS).contains ("Solar Supply (kWh)")

def mainFindHeader (doc : List (List String)) : Option Nat :=
  scanIdx mainHeaderRow (doc.take 50)

/-- Column-name normalization of `main.py`:
`str(col).replace(BOM, '').strip()`. -/
def cleanCol (s : String) : String := trimS (stripBOM s)

def cellAt (r : List String) (i : Nat) : String := (r.get? i).getD ""

/-- Per-document extraction of `main.py`: reject when no header row is found
among the first 50 rows, or when the `Site`/`Date`/`Solar Supply (kWh)`
columns are absent after the reparse; otherwise emit the raw
`(site, date, kwh)` cell triples of the rows below the header (the
`Site ID` column is preferred for the site when present). -/
def mainExtract (doc : List (List String)) :
    Option (List (String × String × String)) :=
  match mainFindHeader doc with
  | none => none
  | some i =>
    match doc.get? i with
    | none => none
    | some hrow =>
      if (hrow.map cleanCol).contains ("Site") &&
          (hrow.map cleanCol).contains ("Date") &&
          (hrow.map cleanCol).contains ("Solar Supply (kWh)") then
        match
          (hrow.map cleanCol).findIdx? (fun c =>
            c == (if (hrow.map cleanCol).contains ("Site ID") then "Site ID"
              else "Site")),
          (hrow.map cleanCol).findIdx? (fun c => c == "Date"),
          (hrow.map cleanCol).findIdx? (fun c => c == "Solar Supply (kWh)") with
        | some si, some di, some ki =>
          some ((doc.drop (i + 1)).map
            (fun r => (cellAt r si, cellAt r di, cellAt r ki)))
        | _, _, _ => none
      else none

/-- Scan test of `sites_table_nogui.py`: the space-joined row contains the
substring `"Solar Supply (kWh)"`. -/
def noguiScanRow (row : List String) : Bool :=
  containsSub (joinSpace row) ("Solar Supply (kWh)")

/-- The header index used by `sites_table_nogui.py`: the first scan match
within 30 rows, else the hard-coded fallback row index 20. -/
def noguiHeaderIdx (doc : List (List String)) : Nat :=
  (scanIdx noguiScanRow (doc.take 30)).getD 20

def flexSiteCol (c : String) : Bool := lowerS c == ("site")

def flexDateCol (c : String) : Bool := lowerS c == ("date")

def flexSolarCol (c : String) : Bool :=
  containsSub (lowerS c) ("solar") && containsSub (lowerS c) ("supply")

/-- Column matching of `sites_table_nogui.py` on the stripped header row
(exact case-insensitive `site`/`date`, substring `solar`+`supply`),
projecting the rows below the header when all three columns are found. -/
def noguiProject (doc : List (List String)) (hrow : List String) :
    Option (List (String × String × String)) :=
  match lastIdxWhere flexSiteCol (hrow.map trimS),
      lastIdxWhere flexDateCol (hrow.map trimS),
      lastIdxWhere flexSolarCol (hrow.map trimS) with
  | some si, some di, some ki =>
    some ((doc.drop (noguiHeaderIdx doc + 1)).map
      (fun r => (cellAt r si, cellAt r di, cellAt r ki)))
  | _, _, _ => none

/-- Per-document extraction of `sites_table_nogui.py`: parse at the detected
or fallback header index, match columns flexibly, reject only when a
required column is missing. -/
def noguiExtract (doc : List (List String)) :
    Option (List (String × String × String)) :=
  match doc.get? (noguiHeaderIdx doc) with
  | none => none
  | some hrow => noguiProject doc hrow

theorem scanIdx_eq_some {p : List String → Bool} {l : List (List String)}
    {i : Nat} (h : scanIdx p l = some i) :
    ∃ row, l.get? i = some row ∧ p row = true ∧
      ∀ j row', j < i → l.get? j = some row' → p row' = false := by
  induction l generalizing i with
  | nil => cases h
  | cons r rs ih =>
    rw [scanIdx] at h
    by_cases hp : p r
    · rw [if_pos hp] at h
      cases h
      exact ⟨r, rfl, hp, fun j row' hj _ => absurd hj (Nat.not_lt_zero j)⟩
    · rw [if_neg hp] at h
      cases hs : scanIdx p rs with
      | none => rw [hs] at h; cases h
      | some j =>
        rw [hs] at h
        cases h
        rcases ih hs with ⟨row, hrow, hprow, hbefore⟩
        refine ⟨row, by simpa using hrow, hprow, ?_⟩
        intro j' row' hj' hget
        match j', hj', hget with
        | 0, _, hget =>
          cases hget
          exact Bool.of_not_eq_true hp
        | j' + 1, hj', hget =>
          exact hbefore j' row' (Nat.lt_of_succ_lt_succ hj') (by simpa using hget)

/-- The document used to exhibit the `sites_table_nogui.py` fallback: 20
preamble rows, then a header whose energy column is spelled
`"Solar supply (kWh)"` (lower-case s), then one data row.  No scanned row
contains the canonical token, yet the fallback parses it at row 20. -/
def exDoc : List (List String) :=
  (List.replicate 20 ["x"]) ++
    [["Site", "Date", "Solar supply (kWh)"], ["A", "2024-01-01", "5"]]

/-- C9 counterexample: on `exDoc` the 30-row scan finds no row containing
`"Solar Supply (kWh)"`, so by the claim the document must be rejected and
contribute no readings; `sites_table_nogui.py` instead falls back to row
index 20, matches the columns flexibly, and extracts the data row.
(`main.py` does reject it.) -/
theorem C9_fallback_counterexample :
    scanIdx noguiScanRow (exDoc.take 30) = none ∧
    noguiExtract exDoc = some [("A", "2024-01-01", "5")] ∧
    mainFindHeader exDoc = none ∧
    mainExtract exDoc = none := by
  refine ⟨by decide, by decide, by decide, by decide⟩

/-- C9 amended: `main.py` behaves as claimed — no header row among the
first 50 rows, or a required column missing after reparse, rejects the
document, and the header is the FIRST scanned row whose stripped cells
contain both tokens; `sites_table_nogui.py` scans only 30 rows for the
substring `"Solar Supply (kWh)"` of the joined row, falls back to row
index 20 instead of rejecting when the scan fails, and rejects only when
the flexible column matching fails there (shown for the energy column). -/
theorem C9_extractor_amended :
    (∀ doc : List (List String),
      mainFindHeader doc = none → mainExtract doc = none) ∧
    (∀ (doc : List (List String)) (i : Nat), mainFindHeader doc = some i →
      ∃ row, (doc.take 50).get? i = some row ∧ mainHeaderRow row = true ∧
        ∀ j row', j < i → (doc.take 50).get? j = some row' →
          mainHeaderRow row' = false) ∧
    (∀ doc : List (List String),
      scanIdx noguiScanRow (doc.take 30) = none → noguiHeaderIdx doc = 20) ∧
    (∀ (doc : List (List String)) (hrow : List String),
      doc.get? (noguiHeaderIdx doc) = some hrow →
      lastIdxWhere flexSolarCol (hrow.map trimS) = none →
      noguiExtract doc = none) := by
  refine ⟨?_, ?_, ?_, ?_⟩
  · intro doc h
    rw [mainExtract, h]
  · intro doc i h
    exact scanIdx_eq_some h
  · intro doc h
    rw [noguiHeaderIdx, h]
    rfl
  · intro doc hrow hget hsolar
    unfold noguiExtract
    rw [hget]
    show noguiProject doc hrow = none
    unfold noguiProject
    rw [hsolar]
    cases lastIdxWhere flexSiteCol (hrow.map trimS) <;>
      cases lastIdxWhere flexDateCol (hrow.map trimS) <;> rfl

/-- Witness for C9 amended: the rejection paths applied to `exDoc` and a
headerless one-row document. -/
theorem C9_extractor_amended_witness :
    mainExtract exDoc = none ∧ noguiHeaderIdx exDoc = 20 :=
  ⟨C9_extractor_amended.1 exDoc (by decide),
    C9_extractor_amended.2.2.1 exDoc (by decide)⟩

end Solar
